import Mathlib

/-!
Shallow embedding of the tool-database viewer (`src/main.rs`) of the
Essai Control Panel repository, together with theorems checking the
specification's claims about its data-normalization, key-collection,
reload and filtering logic.

JSON values (`serde_json::Value`) are embedded as the inductive `Json`
below; JSON numbers are embedded as integers, rendered by `toString` in
their canonical decimal form (the fractional rendering of `f64` is
outside the shallow embedding).  The external library functions
`serde_json::from_str` and the IO-performing `fetch_db` are passed as
explicit function parameters; everything written in the repository
itself is translated directly.

Rust's `Vec<String>::sort` orders strings by their UTF-8 bytes, which
coincides with lexicographic order on Unicode code points; that order is
embedded below as `charListLe` / `strLe` on the strings' character
lists.  Rust's `str::contains` substring test is embedded as an
executable infix check on character lists.
-/

namespace ECP

/-- Lexicographic order on character lists by code point, i.e. the order
in which `Vec<String>::sort` puts UTF-8 strings. -/
def charListLe : List Char → List Char → Bool
  | [], _ => true
  | _ :: _, [] => false
  | a :: as, b :: bs =>
    if a.toNat < b.toNat then true
    else if b.toNat < a.toNat then false
    else charListLe as bs

/-- String comparison used for sorting: byte-wise (code-point-wise)
ascending. -/
def strLe (a b : String) : Bool := charListLe a.toList b.toList

/-- `pat.isPrefixOf l || ...` recursively: does `pat` occur as a
contiguous run inside `l`?  (Embedding of `str::contains` on the
character lists.) -/
def containsChars (pat : List Char) : List Char → Bool
  | [] => pat.isEmpty
  | c :: rest => pat.isPrefixOf (c :: rest) || containsChars pat rest

/-- Embedding of `serde_json::Value`. -/
inductive Json where
  | str (s : String)
  | num (n : Int)
  | bool (b : Bool)
  | null
  | arr (elems : List Json)
  | obj (entries : List (String × Json))

/-- `fn val_to_string(v: &Value) -> String` from `src/main.rs`:
strings pass through, numbers render decimally, booleans as
`true`/`false`, everything else becomes the empty string. -/
def val_to_string : Json → String
  | .str s => s
  | .num n => toString n
  | .bool b => cond b "true" "false"
  | _ => ""

/-- `Value::get(key)`: a key lookup that returns `none` unless the value
is an object containing the key. -/
def jsonGet : Json → String → Option Json
  | .obj entries, key => (entries.find? (fun kv => kv.1 == key)).map (fun kv => kv.2)
  | _, _ => none

/-- `fn field(sec: &Option<Value>, key: &str) -> Option<String>` from
`src/main.rs`: `sec.as_ref()?.get(key).map(val_to_string)`. -/
def field (sec : Option Json) (key : String) : Option String :=
  match sec with
  | none => none
  | some v => (jsonGet v key).map val_to_string

/-- `struct ToolEntry` (the raw deserialized record). -/
structure ToolEntry where
  tool_name : String
  sc_tool_type : String
  solfex : Option Json
  milling_tool : Option Json
  drilling_tool : Option Json

/-- `struct ToolDatabase { tools: Vec<ToolEntry> }`. -/
structure ToolDatabase where
  tools : List ToolEntry

/-- `struct ToolItem` (the normalized record). -/
structure ToolItem where
  tool_name : String
  essai_part : String
  edp_num : String
  manufacturer : String
  holder_name : String
  outside_len : String
  gage_len : String
  description : String
  diameter : String
  loc : String
  solfex : Option Json
  milling : Option Json
  drilling : Option Json

/-- The primary section chosen in `parse_items`:
`"drilling" => (&t.drilling_tool, _)`, otherwise `(&t.milling_tool, _)`. -/
def primarySec (t : ToolEntry) : Option Json :=
  if t.sc_tool_type = "drilling" then t.drilling_tool else t.milling_tool

/-- The secondary section chosen in `parse_items`: the other of the two. -/
def secondarySec (t : ToolEntry) : Option Json :=
  if t.sc_tool_type = "drilling" then t.milling_tool else t.drilling_tool

/-- The closure `pick` of `parse_items`:
`field(pri, k).or_else(|| field(sec, k)).unwrap_or_default()`. -/
def pick (t : ToolEntry) (k : String) : String :=
  ((field (primarySec t) k).orElse (fun _ => field (secondarySec t) k)).getD ""

/-- The record-normalization body of the `map` in `parse_items`. -/
def normalizeEntry (t : ToolEntry) : ToolItem :=
  { tool_name := t.tool_name
    essai_part := pick t "Message2"
    edp_num := pick t "Message1"
    manufacturer := pick t "Message3"
    holder_name := pick t "HolderName"
    outside_len := pick t "Length"
    gage_len := pick t "HLength"
    description := pick t "Description"
    diameter := pick t "Diameter"
    loc := pick t "CuttingLength"
    solfex := t.solfex
    milling := t.milling_tool
    drilling := t.drilling_tool }

/-- `fn parse_items(raw: &str) -> Vec<ToolItem>`.  The external JSON
deserializer `serde_json::from_str` is passed in as `parse`; a parse
failure is its `none` result, and `unwrap_or(ToolDatabase{tools:vec![]})`
is `getD ⟨[]⟩`. -/
def parse_items (parse : String → Option ToolDatabase) (raw : String) : List ToolItem :=
  (((parse raw).getD ⟨[]⟩).tools).map normalizeEntry

/-- `fn unique(iter)`: keep the non-empty strings, sort
(`Vec<String>::sort`, embedded as insertion sort by `strLe`, which
produces the same sorted result), deduplicate. -/
def unique (l : List String) : List String :=
  ((l.filter (fun s => !s.isEmpty)).insertionSort (fun a b => strLe a b = true)).dedup

/-- The keys contributed by one section in `collect_keys`: the keys of an
object section (`if let Some(Value::Object(map)) = sel(it)`), nothing from
an absent or non-object section. -/
def sectionKeys : Option Json → List String
  | some (.obj entries) => entries.map (fun kv => kv.1)
  | _ => []

/-- `fn collect_keys(items, sel)`: the keys of all object sections are
accumulated into a `HashSet` (a deduplicated union) and the set's
elements are sorted. -/
def collect_keys (items : List ToolItem) (sel : ToolItem → Option Json) : List String :=
  ((items.flatMap (fun it => sectionKeys (sel it))).dedup).insertionSort
    (fun a b => strLe a b = true)

/-- `enum DBSource { Local, Online }`. -/
inductive DBSource where
  | Local
  | Online
deriving DecidableEq

/-- `enum ActiveTab { Solfex, Milling, Drilling }`. -/
inductive ActiveTab where
  | Solfex
  | Milling
  | Drilling
deriving DecidableEq

/-- `enum ToolFilter { Family(String), Class(String, String) }`. -/
inductive ToolFilter where
  | Family (e : String)
  | Class (e h : String)

/-- `struct MyApp` (the UI state). -/
structure MyApp where
  source : DBSource
  items : List ToolItem
  manufacturers : List String
  search : String
  manufacturer_filter : Option String
  tool_filter : Option ToolFilter
  selected : Option Nat
  active_tab : ActiveTab
  solfex_keys : List String
  milling_keys : List String
  drilling_keys : List String
  show_local_warning : Bool

/-- `MyApp::reload`.  `fetch_db` (file/network IO) is passed in as a
function from the source selector to the fetched text. -/
def reload (parse : String → Option ToolDatabase) (fetch_db : DBSource → String)
    (s : MyApp) : MyApp :=
  let items := parse_items parse (fetch_db s.source)
  { s with
    items := items
    manufacturers := unique (items.map (fun t => t.manufacturer))
    solfex_keys := collect_keys items (fun t => t.solfex)
    milling_keys := collect_keys items (fun t => t.milling)
    drilling_keys := collect_keys items (fun t => t.drilling)
    selected := none }

/-- The first guard of `MyApp::passes`:
`if let Some(m) = &self.manufacturer_filter { if &it.manufacturer != m { return false; } }`. -/
def manufacturerRejects (filt : Option String) (m : String) : Bool :=
  match filt with
  | some v => m != v
  | none => false

/-- `str::contains` on the lowercased strings, as used in `passes`.
Rust's Unicode `to_lowercase` is embedded as the character-wise
`Char.toLower` (they agree on ASCII data). -/
def lowerContains (hay pat : String) : Bool :=
  containsChars (pat.toList.map Char.toLower) (hay.toList.map Char.toLower)

/-- `MyApp::passes`. -/
def passes (s : MyApp) (it : ToolItem) : Bool :=
  if manufacturerRejects s.manufacturer_filter it.manufacturer then false
  else
    match s.tool_filter with
    | some (.Family e) => it.essai_part == e
    | some (.Class e h) => it.essai_part == e && it.holder_name == h
    | none => s.search.isEmpty || lowerContains it.tool_name s.search

/-- The acceptance test a set tool filter performs: `Family` matches the
part, `Class` matches part and holder. -/
def toolFilterAccepts (f : ToolFilter) (it : ToolItem) : Bool :=
  match f with
  | .Family e => it.essai_part == e
  | .Class e h => it.essai_part == e && it.holder_name == h

/-- The nine normalized display fields of an item, in source order. -/
def displayFields (it : ToolItem) : List String :=
  [it.essai_part, it.edp_num, it.manufacturer, it.holder_name, it.outside_len,
   it.gage_len, it.description, it.diameter, it.loc]

/-- Display-field resolution as the specification words it: the fixed
source key is looked up in the primary section, then in the secondary
section, and defaults to the empty string. -/
def resolveDisplay (pri sec : Option Json) (k : String) : String :=
  match field pri k with
  | some v => v
  | none =>
    match field sec k with
    | some v => v
    | none => ""

end ECP

namespace ECP

theorem char_toNat_inj {a b : Char} (h : a.toNat = b.toNat) : a = b := by
  simpa [Char.ext_iff, UInt32.ext_iff, UInt32.toNat] using h

theorem string_toList_inj {a b : String} (h : a.toList = b.toList) : a = b := by
  cases a; cases b; simp_all [String.toList]

theorem charListLe_cons {a b : Char} {as bs : List Char} :
    charListLe (a :: as) (b :: bs) = true ↔
      a.toNat < b.toNat ∨ (a.toNat = b.toNat ∧ charListLe as bs = true) := by
  simp only [charListLe]
  split
  · rename_i h
    simp [h]
  · rename_i h
    split
    · rename_i h2
      constructor
      · intro hf
        simp at hf
      · rintro (h3 | ⟨h3, _⟩) <;> omega
    · rename_i h2
      have he : a.toNat = b.toNat := by omega
      simp [he, h]

theorem charListLe_total : ∀ a b : List Char, charListLe a b = true ∨ charListLe b a = true
  | [], _ => Or.inl rfl
  | _ :: _, [] => Or.inr rfl
  | a :: as, b :: bs => by
    rcases Nat.lt_trichotomy a.toNat b.toNat with h | h | h
    · exact Or.inl (charListLe_cons.mpr (Or.inl h))
    · rcases charListLe_total as bs with ih | ih
      · exact Or.inl (charListLe_cons.mpr (Or.inr ⟨h, ih⟩))
      · exact Or.inr (charListLe_cons.mpr (Or.inr ⟨h.symm, ih⟩))
    · exact Or.inr (charListLe_cons.mpr (Or.inl h))

theorem charListLe_trans :
    ∀ a b c : List Char, charListLe a b = true → charListLe b c = true →
      charListLe a c = true
  | [], _, _, _, _ => rfl
  | _ :: _, [], _, h, _ => by simp [charListLe] at h
  | _ :: _, _ :: _, [], _, h2 => by simp [charListLe] at h2
  | a :: as, b :: bs, c :: cs, h1, h2 => by
    rcases charListLe_cons.mp h1 with hab | ⟨hab, hab'⟩ <;>
      rcases charListLe_cons.mp h2 with hbc | ⟨hbc, hbc'⟩
    · exact charListLe_cons.mpr (Or.inl (hab.trans hbc))
    · exact charListLe_cons.mpr (Or.inl (hbc ▸ hab))
    · exact charListLe_cons.mpr (Or.inl (hab ▸ hbc))
    · exact charListLe_cons.mpr (Or.inr ⟨hab.trans hbc, charListLe_trans as bs cs hab' hbc'⟩)

theorem charListLe_antisymm :
    ∀ a b : List Char, charListLe a b = true → charListLe b a = true → a = b
  | [], [], _, _ => rfl
  | [], _ :: _, _, h2 => by simp [charListLe] at h2
  | _ :: _, [], h1, _ => by simp [charListLe] at h1
  | a :: as, b :: bs, h1, h2 => by
    rcases charListLe_cons.mp h1 with hab | ⟨hab, hab'⟩ <;>
      rcases charListLe_cons.mp h2 with hba | ⟨hba, hba'⟩ <;>
      try omega
    rw [char_toNat_inj hab, charListLe_antisymm as bs hab' hba']

theorem strLe_antisymm {a b : String} (h1 : strLe a b = true) (h2 : strLe b a = true) :
    a = b :=
  string_toList_inj (charListLe_antisymm _ _ h1 h2)

instance : IsTotal String (fun a b => strLe a b = true) :=
  ⟨fun a b => charListLe_total a.toList b.toList⟩

instance : IsTrans String (fun a b => strLe a b = true) :=
  ⟨fun a b c => charListLe_trans a.toList b.toList c.toList⟩

instance : IsAntisymm String (fun a b => strLe a b = true) :=
  ⟨fun _ _ => strLe_antisymm⟩

end ECP

namespace ECP

/-- The spec's drilling scenario record: the drilling section has
`Length = "10"`, the milling section has `Length = "99"` and
`HolderName = "H1"`. -/
def entryDrill : ToolEntry :=
  { tool_name := "T1"
    sc_tool_type := "drilling"
    solfex := none
    milling_tool := some (.obj [("Length", .str "99"), ("HolderName", .str "H1")])
    drilling_tool := some (.obj [("Length", .str "10")]) }

/-- A milling-typed record with both sections populated. -/
def entryMill : ToolEntry :=
  { tool_name := "T2"
    sc_tool_type := "milling"
    solfex := none
    milling_tool := some (.obj [("Length", .str "99")])
    drilling_tool := some (.obj [("Length", .str "10")]) }

/-- A milling-typed record whose primary (milling) value for `Length` is
present but empty while the secondary (drilling) value is non-empty. -/
def entryEmptyPrimary : ToolEntry :=
  { tool_name := "T3"
    sc_tool_type := "milling"
    solfex := none
    milling_tool := some (.obj [("Length", .str "")])
    drilling_tool := some (.obj [("Length", .str "10")]) }

/-- A record with no attribute sections at all. -/
def entryBare : ToolEntry :=
  { tool_name := "T4"
    sc_tool_type := "milling"
    solfex := none
    milling_tool := none
    drilling_tool := none }

theorem pick_eq_resolve (t : ToolEntry) (k : String) :
    pick t k = resolveDisplay (primarySec t) (secondarySec t) k := by
  unfold pick resolveDisplay
  cases h1 : field (primarySec t) k <;> cases h2 : field (secondarySec t) k <;>
    simp [Option.orElse, h1, h2]

/-- Claim C1: for a record of tool type `"drilling"` a key present in
the drilling section wins over the milling section, for every other
tool type the milling section wins over the drilling section, and the
solfex section never influences the display fields. -/
theorem display_precedence_by_tool_type (t : ToolEntry) (k : String) :
    (t.sc_tool_type = "drilling" →
      ∀ v, field t.drilling_tool k = some v → pick t k = v)
    ∧ (t.sc_tool_type ≠ "drilling" →
      ∀ v, field t.milling_tool k = some v → pick t k = v)
    ∧ (∀ sx : Option Json,
        displayFields (normalizeEntry { t with solfex := sx })
          = displayFields (normalizeEntry t)) := by
  refine ⟨?_, ?_, fun sx => rfl⟩
  · intro h v hv
    simp [pick, primarySec, h, hv, Option.orElse]
  · intro h v hv
    simp [pick, primarySec, if_neg h, hv, Option.orElse]

/-- Witness for C1 on the spec's scenario records: the drilling-typed
record resolves `Length` from its drilling section even though the
milling section also has the key, and the milling-typed record resolves
it from its milling section. -/
theorem display_precedence_by_tool_type_witness :
    pick entryDrill "Length" = "10" ∧ pick entryMill "Length" = "99" := by
  constructor
  · exact (display_precedence_by_tool_type entryDrill "Length").1 rfl "10" rfl
  · exact (display_precedence_by_tool_type entryMill "Length").2.1 (by decide) "99" rfl

/-- Claim C2 counterexample: a present-but-empty primary value does not
fall through to the secondary section.  The milling-typed record
`entryEmptyPrimary` has the empty string at `Length` in its primary
(milling) section and `"10"` in its secondary (drilling) section, yet
normalization yields the empty string, not `"10"`. -/
theorem empty_primary_counterexample :
    field (primarySec entryEmptyPrimary) "Length" = some ""
    ∧ field (secondarySec entryEmptyPrimary) "Length" = some "10"
    ∧ (normalizeEntry entryEmptyPrimary).outside_len = ""
    ∧ ¬ (normalizeEntry entryEmptyPrimary).outside_len = "10" :=
  ⟨rfl, rfl, rfl, by decide⟩

/-- Claim C2 (amended): a primary value that is present (even if its
stringification is empty) is used as is; only a missing primary key
falls through to the secondary section; a key absent from both sections
yields the empty string. -/
theorem fallthrough_on_missing_key (t : ToolEntry) (k : String) :
    (∀ v, field (primarySec t) k = some v → pick t k = v)
    ∧ (field (primarySec t) k = none →
        pick t k = (field (secondarySec t) k).getD "")
    ∧ (field (primarySec t) k = none → field (secondarySec t) k = none →
        pick t k = "") := by
  refine ⟨fun v hv => ?_, fun h1 => ?_, fun h1 h2 => ?_⟩
  · simp [pick, hv, Option.orElse]
  · simp [pick, h1, Option.orElse]
  · simp [pick, h1, h2, Option.orElse]

/-- Witness for the amended C2: the drilling-typed scenario record
falls through to the milling section for the missing `HolderName` key,
and a record with no sections yields the empty string. -/
theorem fallthrough_on_missing_key_witness :
    pick entryDrill "HolderName" = "H1" ∧ pick entryBare "Length" = "" := by
  constructor
  · exact ((fallthrough_on_missing_key entryDrill "HolderName").2.1 rfl).trans rfl
  · exact (fallthrough_on_missing_key entryBare "Length").2.2 rfl rfl

/-- Claim C6: when the external JSON deserializer fails (returns
`none`), `parse_items` returns the empty record list; being a total
function, it propagates no error. -/
theorem parse_items_empty_on_parse_failure (parse : String → Option ToolDatabase)
    (raw : String) (h : parse raw = none) : parse_items parse raw = [] := by
  simp [parse_items, h]

/-- Witness for C6 at the spec's scenario input `"not json"` with a
deserializer that rejects every input. -/
theorem parse_items_empty_on_parse_failure_witness :
    (fun _ : String => (none : Option ToolDatabase)) "not json" = none
    ∧ parse_items (fun _ : String => (none : Option ToolDatabase)) "not json" = [] :=
  ⟨rfl, parse_items_empty_on_parse_failure (fun _ => none) "not json" rfl⟩

/-- Claim C7: `val_to_string` passes strings through, renders numbers in
canonical decimal form, renders booleans as `"true"`/`"false"`, and
collapses arrays, objects and `null` to the empty string. -/
theorem val_to_string_shapes :
    (∀ s, val_to_string (.str s) = s)
    ∧ (∀ n : Int, val_to_string (.num n) = toString n)
    ∧ val_to_string (.num 10) = "10"
    ∧ val_to_string (.num (-3)) = "-3"
    ∧ val_to_string (.bool true) = "true"
    ∧ val_to_string (.bool false) = "false"
    ∧ (∀ l, val_to_string (.arr l) = "")
    ∧ (∀ kvs, val_to_string (.obj kvs) = "")
    ∧ val_to_string .null = "" :=
  ⟨fun _ => rfl, fun _ => rfl, rfl, rfl, rfl, rfl, fun _ => rfl, fun _ => rfl, rfl⟩

/-- Claim C8: each display field is resolved from its fixed source key,
primary section first, then secondary, defaulting to the empty
string. -/
theorem fixed_source_keys (t : ToolEntry) :
    (normalizeEntry t).essai_part = resolveDisplay (primarySec t) (secondarySec t) "Message2"
    ∧ (normalizeEntry t).edp_num = resolveDisplay (primarySec t) (secondarySec t) "Message1"
    ∧ (normalizeEntry t).manufacturer
        = resolveDisplay (primarySec t) (secondarySec t) "Message3"
    ∧ (normalizeEntry t).holder_name
        = resolveDisplay (primarySec t) (secondarySec t) "HolderName"
    ∧ (normalizeEntry t).outside_len = resolveDisplay (primarySec t) (secondarySec t) "Length"
    ∧ (normalizeEntry t).gage_len = resolveDisplay (primarySec t) (secondarySec t) "HLength"
    ∧ (normalizeEntry t).description
        = resolveDisplay (primarySec t) (secondarySec t) "Description"
    ∧ (normalizeEntry t).diameter = resolveDisplay (primarySec t) (secondarySec t) "Diameter"
    ∧ (normalizeEntry t).loc = resolveDisplay (primarySec t) (secondarySec t) "CuttingLength" :=
  ⟨pick_eq_resolve t _, pick_eq_resolve t _, pick_eq_resolve t _, pick_eq_resolve t _,
   pick_eq_resolve t _, pick_eq_resolve t _, pick_eq_resolve t _, pick_eq_resolve t _,
   pick_eq_resolve t _⟩

/-- Claim C9: normalization retains the raw solfex, milling and drilling
sections unchanged in the resulting item. -/
theorem raw_sections_retained (t : ToolEntry) :
    (normalizeEntry t).solfex = t.solfex
    ∧ (normalizeEntry t).milling = t.milling_tool
    ∧ (normalizeEntry t).drilling = t.drilling_tool :=
  ⟨rfl, rfl, rfl⟩

end ECP

namespace ECP

/-- A closed UI state used by the concrete witnesses. -/
def baseApp : MyApp :=
  { source := .Online
    items := []
    manufacturers := []
    search := ""
    manufacturer_filter := none
    tool_filter := none
    selected := none
    active_tab := .Solfex
    solfex_keys := []
    milling_keys := []
    drilling_keys := []
    show_local_warning := false }

/-- A closed normalized item used by the concrete witnesses. -/
def itemOne : ToolItem :=
  { tool_name := "Tool One"
    essai_part := "P"
    edp_num := ""
    manufacturer := "OTHER"
    holder_name := "H"
    outside_len := ""
    gage_len := ""
    description := ""
    diameter := ""
    loc := ""
    solfex := none
    milling := none
    drilling := none }

/-- Claim C4: the filter rules apply in order: a set manufacturer filter
that disagrees with the item rejects it outright; otherwise a set tool
filter alone decides acceptance (search text is ignored); otherwise the
item passes iff the search text is empty or occurs case-insensitively in
the item's name. -/
theorem passes_rule_order (s : MyApp) (it : ToolItem) :
    (∀ m, s.manufacturer_filter = some m → it.manufacturer ≠ m → passes s it = false)
    ∧ ((∀ m, s.manufacturer_filter = some m → it.manufacturer = m) →
        ∀ f, s.tool_filter = some f → passes s it = toolFilterAccepts f it)
    ∧ ((∀ m, s.manufacturer_filter = some m → it.manufacturer = m) →
        s.tool_filter = none →
        passes s it = (s.search.isEmpty || lowerContains it.tool_name s.search)) := by
  refine ⟨?_, ?_, ?_⟩
  · intro m hm hne
    simp [passes, manufacturerRejects, hm, hne]
  · intro hacc f hf
    have hrej : manufacturerRejects s.manufacturer_filter it.manufacturer = false := by
      cases hm : s.manufacturer_filter with
      | none => rfl
      | some v => simp [manufacturerRejects, hacc v hm]
    cases f <;> simp [passes, toolFilterAccepts, hf, hrej]
  · intro hacc hnone
    have hrej : manufacturerRejects s.manufacturer_filter it.manufacturer = false := by
      cases hm : s.manufacturer_filter with
      | none => rfl
      | some v => simp [manufacturerRejects, hacc v hm]
    simp [passes, hnone, hrej]

/-- A state whose manufacturer filter disagrees with `itemOne` while its
tool filter matches it. -/
def appManufacturerRejecting : MyApp :=
  { baseApp with
    manufacturer_filter := some "ACME"
    tool_filter := some (.Family "P") }

/-- A state with a matching family filter and a non-matching search
text. -/
def appFamilyFilter : MyApp :=
  { baseApp with
    tool_filter := some (.Family "P")
    search := "zzz" }

/-- A state with only a search text. -/
def appSearchOnly : MyApp :=
  { baseApp with search := "tool o" }

/-- Witness for C4: a disagreeing manufacturer filter rejects the item
even though the family filter matches; with no manufacturer filter the
family filter accepts despite a non-matching search text; with no tool
filter the case-insensitive search decides. -/
theorem passes_rule_order_witness :
    passes appManufacturerRejecting itemOne = false
    ∧ passes appFamilyFilter itemOne = true
    ∧ passes appSearchOnly itemOne = true := by
  refine ⟨?_, ?_, ?_⟩
  · exact (passes_rule_order _ itemOne).1 "ACME" rfl (by decide)
  · exact ((passes_rule_order _ itemOne).2.1
      (fun m hm => by simp [appFamilyFilter, baseApp] at hm)
      (.Family "P") rfl).trans (by decide)
  · exact ((passes_rule_order _ itemOne).2.2
      (fun m hm => by simp [appSearchOnly, baseApp] at hm) rfl).trans (by decide)

/-- A closed UI state with a selection and all three filters active. -/
def appWithFilters : MyApp :=
  { baseApp with
    search := "q"
    manufacturer_filter := some "M"
    tool_filter := some (.Family "X")
    selected := some 5 }

/-- Claim C3 counterexample: `reload` clears the selection but does not
reset the active filters — on a state with manufacturer filter `"M"`,
tool filter `Family "X"` and search text `"q"`, all three survive the
reload. -/
theorem reload_keeps_filters_counterexample :
    (reload (fun _ => none) (fun _ => "") appWithFilters).manufacturer_filter = some "M"
    ∧ (reload (fun _ => none) (fun _ => "") appWithFilters).tool_filter
        = some (.Family "X")
    ∧ (reload (fun _ => none) (fun _ => "") appWithFilters).search = "q"
    ∧ ¬ ((reload (fun _ => none) (fun _ => "") appWithFilters).manufacturer_filter = none)
    ∧ (reload (fun _ => none) (fun _ => "") appWithFilters).selected = none :=
  ⟨rfl, rfl, rfl, by decide, rfl⟩

/-- Claim C3 (amended): after `reload` the selection is `none` regardless
of the prior selection, and the record list and the three derived key
sets (and the manufacturer list) are fully replaced by values recomputed
from the newly fetched text; the search text, manufacturer filter and
tool filter are NOT reset — they keep their prior values. -/
theorem reload_replaces_state (parse : String → Option ToolDatabase)
    (fetch_db : DBSource → String) (s : MyApp) :
    (reload parse fetch_db s).selected = none
    ∧ (reload parse fetch_db s).items = parse_items parse (fetch_db s.source)
    ∧ (reload parse fetch_db s).manufacturers
        = unique ((parse_items parse (fetch_db s.source)).map (fun t => t.manufacturer))
    ∧ (reload parse fetch_db s).solfex_keys
        = collect_keys (parse_items parse (fetch_db s.source)) (fun t => t.solfex)
    ∧ (reload parse fetch_db s).milling_keys
        = collect_keys (parse_items parse (fetch_db s.source)) (fun t => t.milling)
    ∧ (reload parse fetch_db s).drilling_keys
        = collect_keys (parse_items parse (fetch_db s.source)) (fun t => t.drilling)
    ∧ (reload parse fetch_db s).search = s.search
    ∧ (reload parse fetch_db s).manufacturer_filter = s.manufacturer_filter
    ∧ (reload parse fetch_db s).tool_filter = s.tool_filter
    ∧ (reload parse fetch_db s).source = s.source :=
  ⟨rfl, rfl, rfl, rfl, rfl, rfl, rfl, rfl, rfl, rfl⟩

end ECP

namespace ECP

/-- Claim C5: `collect_keys` returns the sorted, deduplicated union of
the keys of all present object sections; sections that are scalars or
arrays contribute nothing; the result only depends on the multiset of
records, not on their order. -/
theorem collect_keys_canonical (items items' : List ToolItem)
    (sel : ToolItem → Option Json) (hp : items.Perm items') :
    collect_keys items sel = collect_keys items' sel
    ∧ (collect_keys items sel).Pairwise (fun a b => strLe a b = true)
    ∧ (collect_keys items sel).Nodup
    ∧ (∀ k, k ∈ collect_keys items sel ↔ ∃ it ∈ items, k ∈ sectionKeys (sel it))
    ∧ (∀ v : Json, (∀ entries, v ≠ .obj entries) → sectionKeys (some v) = []) := by
  have sorted1 : ∀ l : List ToolItem,
      (collect_keys l sel).Pairwise (fun a b => strLe a b = true) :=
    fun l => List.sorted_insertionSort _ _
  have perm1 : ∀ l : List ToolItem,
      (collect_keys l sel).Perm ((l.flatMap (fun it => sectionKeys (sel it))).dedup) :=
    fun l => List.perm_insertionSort _ _
  refine ⟨?_, sorted1 items, ?_, ?_, ?_⟩
  · refine List.eq_of_perm_of_sorted ?_ (sorted1 items) (sorted1 items')
    exact (perm1 items).trans (((hp.flatMap_right _).dedup).trans (perm1 items').symm)
  · exact ((perm1 items).nodup_iff).mpr (List.nodup_dedup _)
  · intro k
    rw [(perm1 items).mem_iff, List.mem_dedup, List.mem_flatMap]
  · intro v hv
    cases v with
    | obj e => exact absurd rfl (hv e)
    | str s => rfl
    | num n => rfl
    | bool b => rfl
    | null => rfl
    | arr l => rfl

/-- An item whose solfex section has keys `A` and `B`. -/
def itemKeysAB : ToolItem :=
  { itemOne with
    tool_name := "KA"
    solfex := some (.obj [("A", .null), ("B", .null)]) }

/-- An item whose solfex section has keys `B` and `C`. -/
def itemKeysBC : ToolItem :=
  { itemOne with
    tool_name := "KB"
    solfex := some (.obj [("B", .null), ("C", .null)]) }

/-- Witness for C5 on the spec's scenario: solfex sections with keys
`{A,B}` and `{B,C}` yield the key set `["A","B","C"]`, in either record
order. -/
theorem collect_keys_canonical_witness :
    collect_keys [itemKeysAB, itemKeysBC] (fun t => t.solfex)
        = collect_keys [itemKeysBC, itemKeysAB] (fun t => t.solfex)
    ∧ collect_keys [itemKeysAB, itemKeysBC] (fun t => t.solfex) = ["A", "B", "C"] :=
  ⟨(collect_keys_canonical [itemKeysAB, itemKeysBC] [itemKeysBC, itemKeysAB]
      (fun t => t.solfex) (List.Perm.swap itemKeysBC itemKeysAB [])).1,
   by decide⟩

/-- Claim C10: the manufacturer list offered for filtering is the
sorted, deduplicated list of the items' manufacturer values with the
empty string excluded, and reload computes it exactly that way from the
freshly parsed items. -/
theorem manufacturer_filter_choices (l : List String)
    (parse : String → Option ToolDatabase) (fetch_db : DBSource → String) (s : MyApp) :
    (unique l).Pairwise (fun a b => strLe a b = true)
    ∧ (unique l).Nodup
    ∧ (∀ m, m ∈ unique l ↔ m ∈ l ∧ m ≠ "")
    ∧ "" ∉ unique l
    ∧ (reload parse fetch_db s).manufacturers
        = unique (((reload parse fetch_db s).items).map (fun t => t.manufacturer)) := by
  have hsorted :
      ((l.filter (fun x => !x.isEmpty)).insertionSort
          (fun a b => strLe a b = true)).Pairwise (fun a b => strLe a b = true) :=
    List.sorted_insertionSort _ _
  have hmem : ∀ m, m ∈ unique l ↔ m ∈ l ∧ m ≠ "" := by
    intro m
    unfold unique
    rw [List.mem_dedup, (List.perm_insertionSort _ _).mem_iff, List.mem_filter]
    simp [String.isEmpty_iff, Bool.eq_false_iff]
  refine ⟨hsorted.sublist (List.dedup_sublist _), List.nodup_dedup _, hmem, ?_, rfl⟩
  intro hmem0
  exact ((hmem "").mp hmem0).2 rfl

end ECP
